import Mathlib

/-!
Shallow embedding of the address-derivation core of the
multi-network-wallet-generator repository (Go).

Bytes are modelled as `Nat` values below 256 in `List Nat`; 32-bit and
64-bit machine words are `Nat` with explicit reduction modulo `2^32`
respectively `2^64`.  The cryptographic primitives the Go code calls
through libraries (crypto/sha256, golang.org/x/crypto/ripemd160, the
legacy Keccak-256 of go-ethereum, secp256k1 scalar multiplication and
the Bitcoin-alphabet Base58 codec) are embedded as executable Lean
functions computing the same byte-level results.
-/

namespace Wallet

/-- Truncate to a 32-bit word. -/
def w32 (x : Nat) : Nat := x % 4294967296

/-- 32-bit left rotation. -/
def rotl32 (x n : Nat) : Nat :=
  w32 ((x % 4294967296) <<< (n % 32)) ||| ((x % 4294967296) >>> (32 - n % 32))

/-- 32-bit right rotation. -/
def rotr32 (x n : Nat) : Nat := rotl32 x (32 - n % 32)

/-- Big-endian bytes of a 32-bit word. -/
def wordBytesBE (w : Nat) : List Nat :=
  [w / 16777216 % 256, w / 65536 % 256, w / 256 % 256, w % 256]

/-- Little-endian bytes of a 32-bit word. -/
def wordBytesLE (w : Nat) : List Nat :=
  [w % 256, w / 256 % 256, w / 65536 % 256, w / 16777216 % 256]

/-- Big-endian 32-bit words from a byte list (groups of 4). -/
def bytesToWordsBE : List Nat → List Nat
  | a :: b :: c :: d :: rest =>
      (a * 16777216 + b * 65536 + c * 256 + d) :: bytesToWordsBE rest
  | _ => []

/-- Little-endian 32-bit words from a byte list (groups of 4). -/
def bytesToWordsLE : List Nat → List Nat
  | a :: b :: c :: d :: rest =>
      (d * 16777216 + c * 65536 + b * 256 + a) :: bytesToWordsLE rest
  | _ => []

/-- The big-endian numeric value of a byte list (Go `big.Int.SetBytes`). -/
def beNat (l : List Nat) : Nat := l.foldl (fun a b => a * 256 + b) 0

/-! ## SHA-256 (Go `crypto/sha256`, FIPS 180-4) -/

/-- The 64 SHA-256 round constants (written in decimal). -/
def sha256K : List Nat :=
  [1116352408, 1899447441, 3049323471, 3921009573,
   961987163, 1508970993, 2453635748, 2870763221,
   3624381080, 310598401, 607225278, 1426881987,
   1925078388, 2162078206, 2614888103, 3248222580,
   3835390401, 4022224774, 264347078, 604807628,
   770255983, 1249150122, 1555081692, 1996064986,
   2554220882, 2821834349, 2952996808, 3210313671,
   3336571891, 3584528711, 113926993, 338241895,
   666307205, 773529912, 1294757372, 1396182291,
   1695183700, 1986661051, 2177026350, 2456956037,
   2730485921, 2820302411, 3259730800, 3345764771,
   3516065817, 3600352804, 4094571909, 275423344,
   430227734, 506948616, 659060556, 883997877,
   958139571, 1322822218, 1537002063, 1747873779,
   1955562222, 2024104815, 2227730452, 2361852424,
   2428436474, 2756734187, 3204031479, 3329325298]

/-- SHA-256 message padding: append `0x80`, zeros, then the 64-bit
big-endian bit length, reaching a multiple of 64 bytes. -/
def sha256Pad (m : List Nat) : List Nat :=
  let len := m.length
  let padZeros := (64 + 56 - (len + 1) % 64) % 64
  let bitLen := len * 8
  m ++ [0x80] ++ List.replicate padZeros 0 ++
    [bitLen / 72057594037927936 % 256, bitLen / 281474976710656 % 256,
     bitLen / 1099511627776 % 256, bitLen / 4294967296 % 256,
     bitLen / 16777216 % 256, bitLen / 65536 % 256, bitLen / 256 % 256, bitLen % 256]

/-- Split a byte list into `sz`-byte blocks (fuelled structural recursion). -/
def chunks (sz : Nat) : Nat → List Nat → List (List Nat)
  | 0, _ => []
  | _, [] => []
  | fuel + 1, l => l.take sz :: chunks sz fuel (l.drop sz)

/-- One step of the SHA-256 message-schedule extension; the schedule is
kept most-recent-first. -/
def sha256ExtStep (w : List Nat) : Nat :=
  let w2 := w.getD 1 0
  let w7 := w.getD 6 0
  let w15 := w.getD 14 0
  let w16 := w.getD 15 0
  let s0 := (rotr32 w15 7) ^^^ (rotr32 w15 18) ^^^ (w15 >>> 3)
  let s1 := (rotr32 w2 17) ^^^ (rotr32 w2 19) ^^^ (w2 >>> 10)
  w32 (s1 + w7 + s0 + w16)

/-- Extend the (reversed) message schedule by `n` words. -/
def sha256Extend : Nat → List Nat → List Nat
  | 0, w => w
  | n + 1, w => sha256Extend n (sha256ExtStep w :: w)

/-- The eight 32-bit working registers of SHA-256. -/
structure Sha256State where
  a : Nat
  b : Nat
  c : Nat
  d : Nat
  e : Nat
  f : Nat
  g : Nat
  h : Nat

/-- One SHA-256 compression round with round constant plus schedule word `kw`. -/
def sha256Round (s : Sha256State) (kw : Nat) : Sha256State :=
  let S1 := (rotr32 s.e 6) ^^^ (rotr32 s.e 11) ^^^ (rotr32 s.e 25)
  let ch := (s.e &&& s.f) ^^^ ((s.e ^^^ 4294967295) &&& s.g)
  let t1 := w32 (s.h + S1 + ch + kw)
  let S0 := (rotr32 s.a 2) ^^^ (rotr32 s.a 13) ^^^ (rotr32 s.a 22)
  let maj := (s.a &&& s.b) ^^^ (s.a &&& s.c) ^^^ (s.b &&& s.c)
  let t2 := w32 (S0 + maj)
  ⟨w32 (t1 + t2), s.a, s.b, s.c, w32 (s.d + t1), s.e, s.f, s.g⟩

/-- Run the 64 compression rounds over the list of `K[i] + W[i]` values. -/
def sha256Rounds : List Nat → Sha256State → Sha256State
  | [], s => s
  | kw :: rest, s => sha256Rounds rest (sha256Round s kw)

/-- Compress one 64-byte block into the running hash state. -/
def sha256Block (hsh : Sha256State) (block : List Nat) : Sha256State :=
  let w16 := bytesToWordsBE block
  let w := (sha256Extend 48 w16.reverse).reverse
  let kw := List.zipWith (fun k x => w32 (k + x)) sha256K w
  let s := sha256Rounds kw hsh
  ⟨w32 (hsh.a + s.a), w32 (hsh.b + s.b), w32 (hsh.c + s.c), w32 (hsh.d + s.d),
   w32 (hsh.e + s.e), w32 (hsh.f + s.f), w32 (hsh.g + s.g), w32 (hsh.h + s.h)⟩

/-- SHA-256 initial hash values. -/
def sha256Init : Sha256State :=
  ⟨0x6a09e667, 0xbb67ae85, 0x3c6ef372, 0xa54ff53a, 0x510e527f, 0x9b05688c, 0x1f83d9ab, 0x5be0cd19⟩

/-- SHA-256 digest of a byte list: 32 bytes. -/
def sha256 (m : List Nat) : List Nat :=
  let padded := sha256Pad m
  let blocks := chunks 64 (padded.length + 1) padded
  let s := blocks.foldl sha256Block sha256Init
  wordBytesBE s.a ++ wordBytesBE s.b ++ wordBytesBE s.c ++ wordBytesBE s.d ++
  wordBytesBE s.e ++ wordBytesBE s.f ++ wordBytesBE s.g ++ wordBytesBE s.h

/-! ## RIPEMD-160 (golang.org/x/crypto/ripemd160) -/

/-- The five RIPEMD-160 boolean functions, selected by index `i`. -/
def rmdF (i x y z : Nat) : Nat :=
  if i = 0 then x ^^^ y ^^^ z
  else if i = 1 then (x &&& y) ||| ((x ^^^ 4294967295) &&& z)
  else if i = 2 then (x ||| (y ^^^ 4294967295)) ^^^ z
  else if i = 3 then (x &&& z) ||| (y &&& (z ^^^ 4294967295))
  else x ^^^ (y ||| (z ^^^ 4294967295))

/-- Message-word order, left line. -/
def rmdRL : List Nat :=
  [0, 1, 2, 3, 4, 5, 6, 7, 8, 9, 10, 11, 12, 13, 14, 15,
   7, 4, 13, 1, 10, 6, 15, 3, 12, 0, 9, 5, 2, 14, 11, 8,
   3, 10, 14, 4, 9, 15, 8, 1, 2, 7, 0, 6, 13, 11, 5, 12,
   1, 9, 11, 10, 0, 8, 12, 4, 13, 3, 7, 15, 14, 5, 6, 2,
   4, 0, 5, 9, 7, 12, 2, 10, 14, 1, 3, 8, 11, 6, 15, 13]

/-- Message-word order, right line. -/
def rmdRR : List Nat :=
  [5, 14, 7, 0, 9, 2, 11, 4, 13, 6, 15, 8, 1, 10, 3, 12,
   6, 11, 3, 7, 0, 13, 5, 10, 14, 15, 8, 12, 4, 9, 1, 2,
   15, 5, 1, 3, 7, 14, 6, 9, 11, 8, 12, 2, 10, 0, 4, 13,
   8, 6, 4, 1, 3, 11, 15, 0, 5, 12, 2, 13, 9, 7, 10, 14,
   12, 15, 10, 4, 1, 5, 8, 7, 6, 2, 13, 14, 0, 3, 9, 11]

/-- Rotation amounts, left line. -/
def rmdSL : List Nat :=
  [11, 14, 15, 12, 5, 8, 7, 9, 11, 13, 14, 15, 6, 7, 9, 8,
   7, 6, 8, 13, 11, 9, 7, 15, 7, 12, 15, 9, 11, 7, 13, 12,
   11, 13, 6, 7, 14, 9, 13, 15, 14, 8, 13, 6, 5, 12, 7, 5,
   11, 12, 14, 15, 14, 15, 9, 8, 9, 14, 5, 6, 8, 6, 5, 12,
   9, 15, 5, 11, 6, 8, 13, 12, 5, 12, 13, 14, 11, 8, 5, 6]

/-- Rotation amounts, right line. -/
def rmdSR : List Nat :=
  [8, 9, 9, 11, 13, 15, 15, 5, 7, 7, 8, 11, 14, 14, 12, 6,
   9, 13, 15, 7, 12, 8, 9, 11, 7, 7, 12, 7, 6, 15, 13, 11,
   9, 7, 15, 11, 8, 6, 6, 14, 12, 13, 5, 14, 13, 13, 7, 5,
   15, 5, 8, 11, 14, 14, 6, 14, 6, 9, 12, 9, 12, 5, 15, 8,
   8, 5, 12, 9, 12, 5, 14, 6, 8, 13, 6, 5, 15, 13, 11, 11]

/-- Round constants per 16-step group, left line. -/
def rmdKL : List Nat := [0x00000000, 0x5a827999, 0x6ed9eba1, 0x8f1bbcdc, 0xa953fd4e]

/-- Round constants per 16-step group, right line. -/
def rmdKR : List Nat := [0x50a28be6, 0x5c4dd124, 0x6d703ef3, 0x7a6d76e9, 0x00000000]

/-- The five 32-bit chaining registers of RIPEMD-160. -/
structure Rmd5 where
  a : Nat
  b : Nat
  c : Nat
  d : Nat
  e : Nat

/-- Run one RIPEMD-160 line from step `j`, `n` steps remaining. -/
def rmdLine (left : Bool) (x : List Nat) : Nat → Nat → Rmd5 → Rmd5
  | _, 0, s => s
  | j, n + 1, s =>
    let fi := if left then j / 16 else 4 - j / 16
    let k := (if left then rmdKL else rmdKR).getD (j / 16) 0
    let r := (if left then rmdRL else rmdRR).getD j 0
    let sh := (if left then rmdSL else rmdSR).getD j 0
    let t := w32 (rotl32 (w32 (s.a + rmdF fi s.b s.c s.d + x.getD r 0 + k)) sh + s.e)
    rmdLine left x (j + 1) n ⟨s.e, t, s.b, rotl32 s.c 10, s.d⟩

/-- Compress one 64-byte block into the RIPEMD-160 chaining state. -/
def rmdBlock (h : Rmd5) (block : List Nat) : Rmd5 :=
  let x := bytesToWordsLE block
  let l := rmdLine true x 0 80 h
  let r := rmdLine false x 0 80 h
  ⟨w32 (h.b + l.c + r.d), w32 (h.c + l.d + r.e), w32 (h.d + l.e + r.a),
   w32 (h.e + l.a + r.b), w32 (h.a + l.b + r.c)⟩

/-- RIPEMD-160 padding: like SHA-256 but the bit length is little-endian. -/
def rmdPad (m : List Nat) : List Nat :=
  let len := m.length
  let padZeros := (64 + 56 - (len + 1) % 64) % 64
  let bitLen := len * 8
  m ++ [0x80] ++ List.replicate padZeros 0 ++
    [bitLen % 256, bitLen / 256 % 256, bitLen / 65536 % 256, bitLen / 16777216 % 256,
     bitLen / 4294967296 % 256, bitLen / 1099511627776 % 256,
     bitLen / 281474976710656 % 256, bitLen / 72057594037927936 % 256]

/-- RIPEMD-160 initial chaining values. -/
def rmdInit : Rmd5 := ⟨0x67452301, 0xefcdab89, 0x98badcfe, 0x10325476, 0xc3d2e1f0⟩

/-- RIPEMD-160 digest of a byte list: 20 bytes (little-endian words). -/
def ripemd160 (m : List Nat) : List Nat :=
  let padded := rmdPad m
  let blocks := chunks 64 (padded.length + 1) padded
  let s := blocks.foldl rmdBlock rmdInit
  wordBytesLE s.a ++ wordBytesLE s.b ++ wordBytesLE s.c ++ wordBytesLE s.d ++ wordBytesLE s.e

/-! ## Keccak-256 (go-ethereum `crypto.Keccak256`, legacy Keccak padding) -/

/-- Truncate to a 64-bit word. -/
def w64 (x : Nat) : Nat := x % 18446744073709551616

/-- 64-bit left rotation. -/
def rotl64 (x n : Nat) : Nat :=
  w64 ((w64 x) <<< (n % 64)) ||| ((w64 x) >>> (64 - n % 64))

/-- Keccak ρ rotation offsets, lane index `x + 5*y`, one row of the
5×5 state per list. -/
def keccakRho : List Nat :=
  [0, 1, 62, 28, 27] ++
  [36, 44, 6, 55, 20] ++
  [3, 10, 43, 25, 39] ++
  [41, 45, 15, 21, 8] ++
  [18, 2, 61, 56, 14]

/-- Keccak ι round constants (written in decimal). -/
def keccakRC : List Nat :=
  [1, 32898,
   9223372036854808714, 9223372039002292224,
   32907, 2147483649,
   9223372039002292353, 9223372036854808585,
   138, 136,
   2147516425, 2147483658,
   2147516555, 9223372036854775947,
   9223372036854808713, 9223372036854808579,
   9223372036854808578, 9223372036854775936,
   32778, 9223372039002259466,
   9223372039002292353, 9223372036854808704,
   2147483649, 9223372039002292232]

/-- Keccak θ step on the 25-lane state. -/
def keccakTheta (A : List Nat) : List Nat :=
  let C := (List.range 5).map (fun x =>
    A.getD x 0 ^^^ A.getD (x + 5) 0 ^^^ A.getD (x + 10) 0 ^^^
    A.getD (x + 15) 0 ^^^ A.getD (x + 20) 0)
  let D := (List.range 5).map (fun x =>
    C.getD ((x + 4) % 5) 0 ^^^ rotl64 (C.getD ((x + 1) % 5) 0) 1)
  (List.range 25).map (fun i => A.getD i 0 ^^^ D.getD (i % 5) 0)

/-- Keccak ρ and π steps combined: lane `(X, Y)` of the result is lane
`((X + 3Y) mod 5, X)` of the input, rotated by its ρ offset. -/
def keccakRhoPi (A : List Nat) : List Nat :=
  (List.range 25).map (fun j =>
    let X := j % 5
    let Y := j / 5
    let src := (X + 3 * Y) % 5 + 5 * X
    rotl64 (A.getD src 0) (keccakRho.getD src 0))

/-- Keccak χ step. -/
def keccakChi (B : List Nat) : List Nat :=
  (List.range 25).map (fun j =>
    let X := j % 5
    let Y := j / 5
    B.getD j 0 ^^^
      ((B.getD ((X + 1) % 5 + 5 * Y) 0 ^^^ 18446744073709551615) &&&
        B.getD ((X + 2) % 5 + 5 * Y) 0))

/-- One Keccak-f[1600] round with round constant `rc`. -/
def keccakRound (A : List Nat) (rc : Nat) : List Nat :=
  let B := keccakChi (keccakRhoPi (keccakTheta A))
  (B.getD 0 0 ^^^ rc) :: B.drop 1

/-- The full Keccak-f[1600] permutation (24 rounds). -/
def keccakF (A : List Nat) : List Nat := keccakRC.foldl keccakRound A

/-- A 64-bit lane from 8 little-endian bytes. -/
def bytesToLanes : List Nat → List Nat
  | b0 :: b1 :: b2 :: b3 :: b4 :: b5 :: b6 :: b7 :: rest =>
      (b0 + b1 * 256 + b2 * 65536 + b3 * 16777216 + b4 * 4294967296 +
       b5 * 1099511627776 + b6 * 281474976710656 + b7 * 72057594037927936) ::
      bytesToLanes rest
  | _ => []

/-- Little-endian bytes of a 64-bit lane. -/
def laneBytesLE (w : Nat) : List Nat :=
  [w % 256, w / 256 % 256, w / 65536 % 256, w / 16777216 % 256,
   w / 4294967296 % 256, w / 1099511627776 % 256,
   w / 281474976710656 % 256, w / 72057594037927936 % 256]

/-- Absorb one 136-byte block (17 lanes) and permute. -/
def keccakAbsorbBlock (A : List Nat) (block : List Nat) : List Nat :=
  let lanes := bytesToLanes block
  keccakF ((List.range 25).map (fun i => A.getD i 0 ^^^ lanes.getD i 0))

/-- Legacy Keccak multi-rate padding with domain byte `0x01`
(`sha3.NewLegacyKeccak256`), rate 136 bytes. -/
def keccakPad (m : List Nat) : List Nat :=
  let padLen := 136 - m.length % 136
  if padLen = 1 then m ++ [0x81]
  else m ++ [0x01] ++ List.replicate (padLen - 2) 0 ++ [0x80]

/-- Keccak-256 digest of a byte list: 32 bytes. -/
def keccak256 (m : List Nat) : List Nat :=
  let padded := keccakPad m
  let blocks := chunks 136 (padded.length + 1) padded
  let A := blocks.foldl keccakAbsorbBlock (List.replicate 25 0)
  laneBytesLE (A.getD 0 0) ++ laneBytesLE (A.getD 1 0) ++
  laneBytesLE (A.getD 2 0) ++ laneBytesLE (A.getD 3 0)

/-! ## secp256k1 (btcec / go-ethereum curve operations)

Affine coordinates over the prime field, with `none` for the point at
infinity.  Serialisation of the point at infinity is modelled as the
coordinates `(0, 0)`, matching Go's `crypto/elliptic` convention of
representing the identity by zero coordinates. -/

/-- The secp256k1 field characteristic `2^256 - 2^32 - 977`. -/
def secpP : Nat :=
  115792089237316195423570985008687907853269984665640564039457584007908834671663

/-- x-coordinate of the secp256k1 base point `G`. -/
def secpGx : Nat :=
  55066263022277343669578718895168534326250603453777594175500187360389116729240

/-- y-coordinate of the secp256k1 base point `G`. -/
def secpGy : Nat :=
  32670510020758816978083085130507043184471273380659243275938904335757337482424

/-- Modular exponentiation by squaring (fuelled on the exponent). -/
def powMod : Nat → Nat → Nat → Nat → Nat
  | 0, _, _, _ => 1
  | _ + 1, _, 0, m => 1 % m
  | fuel + 1, b, e, m =>
      let h := powMod fuel (b * b % m) (e / 2) m
      if e % 2 = 1 then b % m * h % m else h

/-- Inverse in the secp256k1 field via Fermat's little theorem. -/
def pinv (x : Nat) : Nat := powMod 257 x (secpP - 2) secpP

/-- Subtraction modulo `secpP`. -/
def subp (a b : Nat) : Nat := (a % secpP + (secpP - b % secpP)) % secpP

/-- Multiplication modulo `secpP`. -/
def mulp (a b : Nat) : Nat := a * b % secpP

/-- A curve point: `none` is the point at infinity. -/
def Pt := Option (Nat × Nat)

/-- Point doubling on secp256k1 (curve coefficient a = 0). -/
def pdouble : Pt → Pt
  | none => none
  | some (x, y) =>
      if y % secpP = 0 then none
      else
        let s := mulp (mulp 3 (mulp x x)) (pinv (mulp 2 y))
        let x2 := subp (mulp s s) (mulp 2 x)
        let y2 := subp (mulp s (subp x x2)) y
        some (x2, y2)

/-- Point addition on secp256k1. -/
def padd : Pt → Pt → Pt
  | none, q => q
  | p, none => p
  | some (x1, y1), some (x2, y2) =>
      if x1 % secpP = x2 % secpP then
        if (y1 + y2) % secpP = 0 then none else pdouble (some (x1, y1))
      else
        let s := mulp (subp y2 y1) (pinv (subp x2 x1))
        let x3 := subp (subp (mulp s s) x1) x2
        let y3 := subp (mulp s (subp x1 x3)) y1
        some (x3, y3)

/-- Double-and-add scalar multiplication (fuelled on the bit count). -/
def smul : Nat → Nat → Pt → Pt
  | 0, _, _ => none
  | fuel + 1, k, base =>
      if k = 0 then none
      else
        let r := smul fuel (k / 2) (pdouble base)
        if k % 2 = 1 then padd base r else r

/-- `k·G` on secp256k1 (the public-key point of private scalar `k`). -/
def scalarBaseMult (k : Nat) : Pt := smul 257 k (some (secpGx, secpGy))

/-- Affine coordinates of a point, `(0, 0)` for the point at infinity. -/
def coords : Pt → Nat × Nat
  | none => (0, 0)
  | some p => p

/-- 32 big-endian bytes of a 256-bit value (zero-padded on the left). -/
def natBytes32BE (x : Nat) : List Nat :=
  (List.range 32).map (fun i => x / 256 ^ (31 - i) % 256)

/-! ## Base58 (btcsuite/btcutil/base58; mr-tron/base58 computes the
same encoding function over the Bitcoin alphabet) -/

/-- The Bitcoin Base58 alphabet (btcsuite's `alphabet` constant). -/
def b58Alphabet : List Char :=
  "123456789ABCDEFGHJKLMNPQRSTUVWXYZabcdefghijkmnopqrstuvwxyz".data

/-- Digit `d` (< 58) rendered as its Base58 character. -/
def b58Char (d : Nat) : Char := b58Alphabet.getD d '1'

/-- Little-endian base-`b` digits of `x` (fuelled structural recursion;
any fuel `≥ x` is sufficient). -/
def natToDigitsLE (b : Nat) : Nat → Nat → List Nat
  | 0, _ => []
  | fuel + 1, x => if x = 0 then [] else x % b :: natToDigitsLE b fuel (x / b)

/-- Number of leading zero bytes. -/
def zeroCount (l : List Nat) : Nat := (l.takeWhile (fun v => v == 0)).length

/-- Base58 encoding of a byte list: one `'1'` per leading zero byte,
then the base-58 digits of the big-endian value, most significant
first (btcsuite `base58.Encode`). -/
def base58Encode (bs : List Nat) : String :=
  let x := beNat bs
  (List.replicate (zeroCount bs) '1' ++
    ((natToDigitsLE 58 x x).map b58Char).reverse).asString

/-- `mr-tron/base58` `Encode` computes the identical encoding (leading
`'1'`s plus base-58 digits of the big-endian value, Bitcoin alphabet),
so it is modelled by the same function. -/
def mrtronBase58Encode (bs : List Nat) : String := base58Encode bs

/-- Index of a character in the Base58 alphabet. -/
def b58ValueAux : List Char → Nat → Char → Option Nat
  | [], _, _ => none
  | a :: rest, i, c => if c = a then some i else b58ValueAux rest (i + 1) c

/-- Numeric value of a Base58 character. -/
def b58Value (c : Char) : Option Nat := b58ValueAux b58Alphabet 0 c

/-- Parse Base58 characters most-significant-first into a number;
`none` on an invalid character. -/
def parseB58 : Option Nat → List Char → Option Nat
  | none, _ => none
  | some a, [] => some a
  | some a, c :: cs =>
      match b58Value c with
      | none => none
      | some d => parseB58 (some (a * 58 + d)) cs

/-- Base58 decoding (btcsuite `base58.Decode`): leading `'1'`s become
zero bytes, the remaining characters the big-endian bytes of the parsed
number; an invalid character yields the empty byte list. -/
def base58Decode (s : String) : List Nat :=
  match parseB58 (some 0) s.data with
  | none => []
  | some x =>
      List.replicate ((s.data.takeWhile (fun c => c == '1')).length) 0 ++
        (natToDigitsLE 256 x x).reverse

/-! ## Key model (tyler-smith/go-bip32, btcec) -/

/-- A BIP32 child key as the pipelines consume it: the 32-byte private
scalar stored in the Go field `childKey.Key`. -/
structure ChildKey where
  key : List Nat

/-- tyler-smith/go-bip32 `compressPublicKey`: parity prefix byte
`0x02`/`0x03` followed by the x-coordinate zero-padded to 32 bytes. -/
def compressPublicKey (pt : Nat × Nat) : List Nat :=
  (2 + pt.2 % 2) :: natBytes32BE pt.1

/-- `childKey.PublicKey().Key`: the 33-byte compressed public key
derived from the private scalar. -/
def publicKeyKey (k : ChildKey) : List Nat :=
  compressPublicKey (coords (scalarBaseMult (beNat k.key)))

/-- btcec `PubKey.SerializeUncompressed`: `0x04` followed by the two
coordinates as 32 big-endian bytes each (65 bytes). -/
def serializeUncompressed (pt : Nat × Nat) : List Nat :=
  4 :: (natBytes32BE pt.1 ++ natBytes32BE pt.2)

/-! ## EVM hex rendering (go-ethereum `common.Address.Hex`) -/

/-- ASCII code of the lowercase hex digit `d`. -/
def hexCharLower (d : Nat) : Nat := if d < 10 then 48 + d else 87 + d

/-- Lowercase hex ASCII bytes of a byte list. -/
def bytesToHexAscii (l : List Nat) : List Nat :=
  l.flatMap (fun b => [hexCharLower (b / 16 % 16), hexCharLower (b % 16)])

/-- go-ethereum `Address.checksumHex` (EIP-55): Keccak-256 of the 40
lowercase hex ASCII characters; hex character `j` is uppercased when it
is a letter and nibble `j` of the hash exceeds 7. -/
def checksumHexAscii (addr : List Nat) : List Nat :=
  let lower := bytesToHexAscii addr
  let h := keccak256 lower
  (List.range lower.length).map (fun j =>
    let c := lower.getD j 0
    let hb := h.getD (j / 2) 0
    let nib := if j % 2 = 0 then hb / 16 else hb % 16
    if 57 < c ∧ 7 < nib then c - 32 else c)

/-- go-ethereum `Address.Hex`: `"0x"` plus the EIP-55 checksummed hex
rendering of the 20 address bytes. -/
def addressHex (addr : List Nat) : String :=
  ('0' :: 'x' :: (checksumHexAscii addr).map Char.ofNat).asString

/-! ## Pipelines of src/utils/utils.go (current revision) -/

namespace utils

/-- `generateEVMAddress` (src/utils/utils.go): public-key point from the
private scalar, Keccak-256 of the 64-byte `x ‖ y`, last 20 bytes,
rendered by `Address.Hex` (EIP-55 checksummed, `"0x"`-prefixed). -/
def generateEVMAddress (childKey : ChildKey) : String :=
  let pub := coords (scalarBaseMult (beNat childKey.key))
  let pubBytes64 := natBytes32BE pub.1 ++ natBytes32BE pub.2
  addressHex ((keccak256 pubBytes64).drop 12)

/-- `hash160` (src/utils/utils.go): RIPEMD-160 of SHA-256. -/
def hash160 (data : List Nat) : List Nat := ripemd160 (sha256 data)

/-- `computeChecksum` (src/utils/utils.go): first 4 bytes of the double
SHA-256. -/
def computeChecksum (data : List Nat) : List Nat := (sha256 (sha256 data)).take 4

/-- `generateBTCAddress` (src/utils/utils.go). -/
def generateBTCAddress (childKey : ChildKey) : String :=
  let pubKeyBytes := publicKeyKey childKey
  let pubKeyHash := hash160 pubKeyBytes
  let versionedPayload := 0 :: pubKeyHash
  let fullPayload := versionedPayload ++ computeChecksum versionedPayload
  base58Encode fullPayload

/-- `generateERCAddress` (src/utils/utils.go): version byte `0x21`. -/
def generateERCAddress (childKey : ChildKey) : String :=
  let pubKeyHash := hash160 (publicKeyKey childKey)
  let versionedPayload := 0x21 :: pubKeyHash
  let fullPayload := versionedPayload ++ computeChecksum versionedPayload
  base58Encode fullPayload

/-- `generateTRXAddress` (src/utils/utils.go): SHA-256 then RIPEMD-160
of `childKey.PublicKey().Key` (the 33-byte compressed key), version
byte `0x41`, checksum, mr-tron Base58. -/
def generateTRXAddress (childKey : ChildKey) : String :=
  let pubKeyBytes := publicKeyKey childKey
  let sha256Hash := sha256 pubKeyBytes
  let pubKeyHash := ripemd160 sha256Hash
  let trxPayload := 0x41 :: pubKeyHash
  let fullPayload := trxPayload ++ computeChecksum trxPayload
  mrtronBase58Encode fullPayload

/-- `AddressConversion` (src/utils/utils.go).  The default branch logs
`"Unsupported network: %s"` (a side effect outside the pure embedding)
and returns the empty string. -/
def AddressConversion (childKey : ChildKey) (network : String) : String :=
  if network = "EVM" then generateEVMAddress childKey
  else if network = "BTC" then generateBTCAddress childKey
  else if network = "TRX" then generateTRXAddress childKey
  else if network = "ERC" then generateERCAddress childKey
  else ""

end utils

/-! ## Pipelines of src/unnamed/part_000 (earlier revision) -/

namespace part000

/-- `generateEVMAddress` (src/unnamed/part_000): returns
`"0x" + newAddress.Hex()`, and `Hex()` already carries a `"0x"`. -/
def generateEVMAddress (childKey : ChildKey) : String :=
  let pub := coords (scalarBaseMult (beNat childKey.key))
  let pubBytes64 := natBytes32BE pub.1 ++ natBytes32BE pub.2
  "0x" ++ addressHex ((keccak256 pubBytes64).drop 12)

/-- `Hash160` (src/unnamed/part_000): RIPEMD-160 of SHA-256. -/
def Hash160 (data : List Nat) : List Nat := ripemd160 (sha256 data)

/-- `computeChecksum` (src/unnamed/part_000): first 4 bytes of the
double SHA-256 (hasher-API formulation of the same function). -/
def computeChecksum (data : List Nat) : List Nat := (sha256 (sha256 data)).take 4

/-- `generateBTCAddress` (src/unnamed/part_000). -/
def generateBTCAddress (childKey : ChildKey) : String :=
  let pubKeyBytes := publicKeyKey childKey
  let pubKeyHash := Hash160 pubKeyBytes
  let versionedPayload := 0 :: pubKeyHash
  let checksum := computeChecksum versionedPayload
  let fullPayload := versionedPayload ++ checksum
  base58Encode fullPayload

/-- `generateTRXAddress` (src/unnamed/part_000): re-derives the public
key from the private scalar in uncompressed 65-byte form via btcec,
then hashes it. -/
def generateTRXAddress (childKey : ChildKey) : String :=
  let publicKey := serializeUncompressed (coords (scalarBaseMult (beNat childKey.key)))
  let pubKeyHash := Hash160 publicKey
  let addressBytes := 0x41 :: pubKeyHash
  let checksum := computeChecksum addressBytes
  let fullPayload := addressBytes ++ checksum
  base58Encode fullPayload

/-- `AddressConversion` (src/unnamed/part_000): ERC is unimplemented
(`TODO`), both it and the default branch yield the empty string. -/
def AddressConversion (childKey : ChildKey) (network : String) : String :=
  if network = "EVM" then generateEVMAddress childKey
  else if network = "BTC" then generateBTCAddress childKey
  else if network = "TRX" then generateTRXAddress childKey
  else if network = "ERC" then ""
  else ""

end part000

/-- The child key with private scalar 1 (32 bytes `00 … 00 01`), used as
the concrete evaluation point. -/
def keyOne : ChildKey := ⟨List.replicate 31 0 ++ [1]⟩

/-- The value of a little-endian digit list in base `b`. -/
def ofDigitsLE (b : Nat) (l : List Nat) : Nat := l.foldr (fun d a => a * b + d) 0

/-- ASCII codes of the lowercase hex digits. -/
def lowerHexCodes : List Nat :=
  [48, 49, 50, 51, 52, 53, 54, 55, 56, 57, 97, 98, 99, 100, 101, 102]

/-- ASCII codes of hex digits, lowercase or uppercase. -/
def hexAsciiCodes : List Nat :=
  [48, 49, 50, 51, 52, 53, 54, 55, 56, 57,
   97, 98, 99, 100, 101, 102, 65, 66, 67, 68, 69, 70]

/-- Hex-digit characters, lowercase or uppercase. -/
def hexDigitChars : List Char := "0123456789abcdefABCDEF".data

/-- Lowercase hex-digit characters only. -/
def lowercaseHexChars : List Char := "0123456789abcdef".data

/-!
# Lemmas
-/

theorem mod256_lt (x : Nat) : x % 256 < 256 := Nat.mod_lt _ (by norm_num)

theorem mem_wordBytesBE {b w : Nat} (h : b ∈ wordBytesBE w) : b < 256 := by
  simp only [wordBytesBE, List.mem_cons, List.not_mem_nil, or_false] at h
  rcases h with rfl | rfl | rfl | rfl <;> exact mod256_lt _

theorem mem_wordBytesLE {b w : Nat} (h : b ∈ wordBytesLE w) : b < 256 := by
  simp only [wordBytesLE, List.mem_cons, List.not_mem_nil, or_false] at h
  rcases h with rfl | rfl | rfl | rfl <;> exact mod256_lt _

theorem mem_laneBytesLE {b w : Nat} (h : b ∈ laneBytesLE w) : b < 256 := by
  simp only [laneBytesLE, List.mem_cons, List.not_mem_nil, or_false] at h
  rcases h with rfl | rfl | rfl | rfl | rfl | rfl | rfl | rfl <;> exact mod256_lt _

theorem sha256_length (m : List Nat) : (sha256 m).length = 32 := by
  simp [sha256, wordBytesBE]

theorem sha256_lt (m : List Nat) : ∀ b ∈ sha256 m, b < 256 := by
  intro b hb
  simp only [sha256, List.mem_append] at hb
  rcases hb with ((((((h | h) | h) | h) | h) | h) | h) | h <;> exact mem_wordBytesBE h

theorem ripemd160_length (m : List Nat) : (ripemd160 m).length = 20 := by
  simp [ripemd160, wordBytesLE]

theorem ripemd160_lt (m : List Nat) : ∀ b ∈ ripemd160 m, b < 256 := by
  intro b hb
  simp only [ripemd160, List.mem_append] at hb
  rcases hb with (((h | h) | h) | h) | h <;> exact mem_wordBytesLE h

theorem keccak256_length (m : List Nat) : (keccak256 m).length = 32 := by
  simp [keccak256, laneBytesLE]

theorem keccak256_lt (m : List Nat) : ∀ b ∈ keccak256 m, b < 256 := by
  intro b hb
  simp only [keccak256, List.mem_append] at hb
  rcases hb with ((h | h) | h) | h <;> exact mem_laneBytesLE h

theorem hash160_length (m : List Nat) : (utils.hash160 m).length = 20 :=
  ripemd160_length _

theorem hash160_lt (m : List Nat) : ∀ b ∈ utils.hash160 m, b < 256 :=
  ripemd160_lt _

theorem computeChecksum_length (m : List Nat) : (utils.computeChecksum m).length = 4 := by
  simp [utils.computeChecksum, List.length_take, sha256_length]

theorem computeChecksum_lt (m : List Nat) : ∀ b ∈ utils.computeChecksum m, b < 256 :=
  fun b hb => sha256_lt _ b (List.mem_of_mem_take hb)

/-! ### Digit-list arithmetic -/

theorem ofDigitsLE_nil (b : Nat) : ofDigitsLE b [] = 0 := rfl

theorem ofDigitsLE_cons (b d : Nat) (l : List Nat) :
    ofDigitsLE b (d :: l) = ofDigitsLE b l * b + d := rfl

theorem natToDigitsLE_zero (b fuel : Nat) : natToDigitsLE b fuel 0 = [] := by
  cases fuel <;> simp [natToDigitsLE]

theorem ofDigits_natToDigitsLE (b : Nat) (hb : 2 ≤ b) :
    ∀ fuel x, x ≤ fuel → ofDigitsLE b (natToDigitsLE b fuel x) = x := by
  intro fuel
  induction fuel with
  | zero => intro x hx; interval_cases x; simp [natToDigitsLE, ofDigitsLE_nil]
  | succ n ih =>
    intro x hx
    by_cases h0 : x = 0
    · subst h0; simp [natToDigitsLE, ofDigitsLE_nil]
    · have hdiv : x / b ≤ n := by
        have h1 : x / b < x := Nat.div_lt_self (Nat.pos_of_ne_zero h0) (by omega)
        omega
      simp only [natToDigitsLE, if_neg h0, ofDigitsLE_cons, ih _ hdiv]
      rw [Nat.mul_comm]
      exact Nat.div_add_mod x b

theorem natToDigitsLE_lt (b : Nat) (hb : 0 < b) :
    ∀ fuel x d, d ∈ natToDigitsLE b fuel x → d < b := by
  intro fuel
  induction fuel with
  | zero => intro x d hd; simp [natToDigitsLE] at hd
  | succ n ih =>
    intro x d hd
    by_cases h0 : x = 0
    · subst h0; simp [natToDigitsLE] at hd
    · simp only [natToDigitsLE, if_neg h0, List.mem_cons] at hd
      rcases hd with rfl | hd
      · exact Nat.mod_lt _ hb
      · exact ih _ _ hd

theorem natToDigitsLE_ne_nil (b : Nat) :
    ∀ fuel x, 0 < x → x ≤ fuel → natToDigitsLE b fuel x ≠ [] := by
  intro fuel x hx hfuel
  cases fuel with
  | zero => omega
  | succ n => simp [natToDigitsLE, Nat.pos_iff_ne_zero.mp hx]

theorem natToDigitsLE_last (b : Nat) (hb : 2 ≤ b) :
    ∀ fuel x, x ≤ fuel → 0 < x → (natToDigitsLE b fuel x).getLast? ≠ some 0 := by
  intro fuel
  induction fuel with
  | zero => intro x hx hpos; omega
  | succ n ih =>
    intro x hx hpos
    have h0 : x ≠ 0 := by omega
    simp only [natToDigitsLE, if_neg h0]
    by_cases hq : x / b = 0
    · rw [hq, natToDigitsLE_zero]
      have hxb : x < b := by
        rcases Nat.lt_or_ge x b with h | h
        · exact h
        · exact absurd hq (by
            have : 0 < x / b := Nat.div_pos h (by omega)
            omega)
      simp only [List.getLast?_singleton, ne_eq, Option.some_inj]
      rw [Nat.mod_eq_of_lt hxb]
      omega
    · have hdiv : x / b ≤ n := by
        have h1 : x / b < x := Nat.div_lt_self hpos (by omega)
        omega
      have hne := natToDigitsLE_ne_nil b n (x / b) (Nat.pos_of_ne_zero hq) hdiv
      obtain ⟨r, rs, hr⟩ := List.exists_cons_of_ne_nil hne
      rw [hr, List.getLast?_cons_cons, ← hr]
      exact ih _ hdiv (Nat.pos_of_ne_zero hq)

theorem ofDigitsLE_pos (b : Nat) (hb : 2 ≤ b) :
    ∀ l : List Nat, l ≠ [] → l.getLast? ≠ some 0 → 0 < ofDigitsLE b l := by
  intro l
  induction l with
  | nil => intro h; exact absurd rfl h
  | cons d rest ih =>
    intro _ hlast
    cases rest with
    | nil =>
      simp only [List.getLast?_singleton, ne_eq, Option.some_inj] at hlast
      simp only [ofDigitsLE_cons, ofDigitsLE_nil]
      omega
    | cons r rs =>
      rw [List.getLast?_cons_cons] at hlast
      have hpos := ih (by simp) hlast
      rw [ofDigitsLE_cons]
      have : b ≥ 2 := hb
      nlinarith

theorem natToDigitsLE_ofDigits (b : Nat) (hb : 2 ≤ b) :
    ∀ (l : List Nat) fuel, (∀ d ∈ l, d < b) → l.getLast? ≠ some 0 →
      ofDigitsLE b l ≤ fuel → natToDigitsLE b fuel (ofDigitsLE b l) = l := by
  intro l
  induction l with
  | nil => intro fuel _ _ _; rw [ofDigitsLE_nil, natToDigitsLE_zero]
  | cons d rest ih =>
    intro fuel hlt hlast hfuel
    have hd : d < b := hlt d (by simp)
    have hv : ofDigitsLE b (d :: rest) = ofDigitsLE b rest * b + d := ofDigitsLE_cons ..
    cases rest with
    | nil =>
      simp only [List.getLast?_singleton, ne_eq, Option.some_inj] at hlast
      have hdpos : 0 < d := Nat.pos_of_ne_zero hlast
      have hval : ofDigitsLE b [d] = d := by simp [ofDigitsLE_cons, ofDigitsLE_nil]
      rw [hval] at hfuel ⊢
      cases fuel with
      | zero => omega
      | succ n =>
        simp only [natToDigitsLE, if_neg (by omega : ¬ d = 0)]
        rw [Nat.mod_eq_of_lt hd, Nat.div_eq_of_lt hd, natToDigitsLE_zero]
    | cons r rs =>
      rw [List.getLast?_cons_cons] at hlast
      have hrpos : 0 < ofDigitsLE b (r :: rs) := ofDigitsLE_pos b hb _ (by simp) hlast
      have hvpos : 0 < ofDigitsLE b (d :: r :: rs) := by rw [hv]; nlinarith
      cases fuel with
      | zero => omega
      | succ n =>
        simp only [natToDigitsLE, if_neg (by omega : ¬ ofDigitsLE b (d :: r :: rs) = 0)]
        have hmod : (ofDigitsLE b (r :: rs) * b + d) % b = d := by
          rw [Nat.mul_comm, Nat.mul_add_mod]; exact Nat.mod_eq_of_lt hd
        have hdiv2 : (ofDigitsLE b (r :: rs) * b + d) / b = ofDigitsLE b (r :: rs) := by
          rw [add_comm, Nat.add_mul_div_right _ _ (by omega : 0 < b),
            Nat.div_eq_of_lt hd, Nat.zero_add]
        rw [hv, hmod, hdiv2]
        have hA1 : ofDigitsLE b (r :: rs) + 1 ≤ ofDigitsLE b (r :: rs) * b := by nlinarith
        have hfuel2 : ofDigitsLE b (r :: rs) ≤ n := by rw [hv] at hfuel; omega
        rw [ih n (fun e he => hlt e (by simp [he])) hlast hfuel2]

/-! ### Base58 parsing -/

theorem b58Value_b58Char : ∀ d, d < 58 → b58Value (b58Char d) = some d := by decide

theorem b58Char_ne_one : ∀ d, d < 58 → d ≠ 0 → (b58Char d == '1') = false := by decide

theorem b58Value_one : b58Value '1' = some 0 := by decide

theorem parseB58_nil (a : Nat) : parseB58 (some a) [] = some a := rfl

theorem parseB58_cons_valid {c : Char} {d : Nat} (h : b58Value c = some d) (a : Nat)
    (cs : List Char) : parseB58 (some a) (c :: cs) = parseB58 (some (a * 58 + d)) cs := by
  simp [parseB58, h]

theorem parseB58_ones (z : Nat) (cs : List Char) :
    parseB58 (some 0) (List.replicate z '1' ++ cs) = parseB58 (some 0) cs := by
  induction z with
  | zero => rfl
  | succ n ih =>
    rw [List.replicate_succ, List.cons_append, parseB58_cons_valid b58Value_one]
    simpa using ih

theorem parseB58_map (digs : List Nat) : ∀ a, (∀ d ∈ digs, d < 58) →
    parseB58 (some a) (digs.map b58Char) =
      some (digs.foldl (fun a d => a * 58 + d) a) := by
  induction digs with
  | nil => intro a _; rfl
  | cons d rest ih =>
    intro a h
    rw [List.map_cons, parseB58_cons_valid (b58Value_b58Char d (h d (by simp))),
      List.foldl_cons]
    exact ih _ (fun e he => h e (by simp [he]))

theorem foldl_reverse_ofDigits (l : List Nat) :
    l.reverse.foldl (fun a d => a * 58 + d) 0 = ofDigitsLE 58 l := by
  rw [List.foldl_reverse]; rfl

theorem beNat_eq_ofDigits (l : List Nat) : beNat l = ofDigitsLE 256 l.reverse := by
  rw [ofDigitsLE, List.foldr_reverse]; rfl

/-! ### Leading zeros and ones -/

theorem takeWhile_zero_eq_replicate (l : List Nat) :
    l.takeWhile (fun v => v == 0) = List.replicate (zeroCount l) 0 := by
  have h : ∀ v ∈ l.takeWhile (fun v => v == 0), v = 0 := by
    intro v hv
    simpa using List.mem_takeWhile_imp hv
  rw [zeroCount]
  exact List.eq_replicate_of_mem h

theorem zeros_append_dropWhile (l : List Nat) :
    List.replicate (zeroCount l) 0 ++ l.dropWhile (fun v => v == 0) = l := by
  rw [← takeWhile_zero_eq_replicate]
  exact List.takeWhile_append_dropWhile _ _

theorem dropWhile_head_ne (l : List Nat) :
    ∀ r, (l.dropWhile (fun v => v == 0)).head? = some r → r ≠ 0 := by
  induction l with
  | nil => intro r h; simp [List.dropWhile] at h
  | cons a t ih =>
    intro r h
    rw [List.dropWhile_cons] at h
    by_cases ha : a = 0
    · simp only [ha, beq_self_eq_true, if_pos] at h
      exact ih r h
    · simp only [beq_iff_eq, if_neg ha, List.head?_cons, Option.some_inj] at h
      omega

theorem foldl_beNat_ge (t : List Nat) : ∀ a, a ≤ t.foldl (fun a d => a * 256 + d) a := by
  induction t with
  | nil => intro a; exact le_refl a
  | cons d t ih =>
    intro a
    have h1 : a ≤ a * 256 + d := by omega
    exact le_trans h1 (ih _)

theorem foldl_beNat_zeros (z : Nat) (rest : List Nat) :
    beNat (List.replicate z 0 ++ rest) = beNat rest := by
  induction z with
  | zero => rfl
  | succ n ih =>
    rw [List.replicate_succ, List.cons_append]
    show beNat (List.replicate n 0 ++ rest) = beNat rest
    exact ih

theorem beNat_cons_pos (r : Nat) (t : List Nat) (hr : r ≠ 0) : 0 < beNat (r :: t) := by
  have h1 := foldl_beNat_ge t r
  have hb : beNat (r :: t) = t.foldl (fun a d => a * 256 + d) r := by
    show t.foldl _ (0 * 256 + r) = _
    norm_num
  omega

theorem takeWhile_one_replicate (z : Nat) :
    (List.replicate z '1').takeWhile (fun c => c == '1') = List.replicate z '1' := by
  induction z with
  | zero => rfl
  | succ n ih => simp [List.replicate_succ, List.takeWhile_cons, ih]

theorem takeWhile_ones_append (z : Nat) (c : Char) (cs : List Char)
    (hc : (c == '1') = false) :
    ((List.replicate z '1' ++ c :: cs).takeWhile (fun c => c == '1')).length = z := by
  induction z with
  | zero => simp [List.takeWhile_cons, hc]
  | succ n ih => simpa [List.replicate_succ, List.takeWhile_cons] using ih

/-! ### The Base58 round trip -/

theorem base58_decode_encode (bs : List Nat) (hbs : ∀ v ∈ bs, v < 256) :
    base58Decode (base58Encode bs) = bs := by
  have hsplit := zeros_append_dropWhile bs
  have hxval : beNat bs = ofDigitsLE 256 (bs.dropWhile (fun v => v == 0)).reverse := by
    conv_lhs => rw [← hsplit]
    rw [foldl_beNat_zeros, beNat_eq_ofDigits]
  have hdigs58lt : ∀ d ∈ natToDigitsLE 58 (beNat bs) (beNat bs), d < 58 :=
    natToDigitsLE_lt 58 (by norm_num) _ _
  have hdata : (base58Encode bs).data =
      List.replicate (zeroCount bs) '1' ++
        ((natToDigitsLE 58 (beNat bs) (beNat bs)).map b58Char).reverse := rfl
  cases hrest : bs.dropWhile (fun v => v == 0) with
  | nil =>
    have hx0 : beNat bs = 0 := by rw [hxval, hrest]; rfl
    have hd0 : natToDigitsLE 58 (beNat bs) (beNat bs) = [] := by
      rw [hx0, natToDigitsLE_zero]
    rw [hrest, List.append_nil] at hsplit
    have hdata2 : (base58Encode bs).data = List.replicate (zeroCount bs) '1' := by
      rw [hdata, hd0]; simp
    have hparse0 : parseB58 (some 0) (List.replicate (zeroCount bs) '1') = some 0 := by
      have := parseB58_ones (zeroCount bs) []
      rwa [List.append_nil] at this
    simp only [base58Decode, hparse0, hdata2, takeWhile_one_replicate,
      List.length_replicate, natToDigitsLE_zero, List.reverse_nil, List.append_nil]
    exact hsplit
  | cons r t =>
    have hr : r ≠ 0 := dropWhile_head_ne bs r (by rw [hrest]; rfl)
    have hrest_mem : ∀ v ∈ (r :: t : List Nat), v < 256 := by
      intro v hv
      apply hbs
      rw [← hsplit, hrest]
      exact List.mem_append_right _ hv
    have hxpos : 0 < beNat bs := by
      have : beNat bs = beNat (r :: t) := by
        conv_lhs => rw [← hsplit]
        rw [foldl_beNat_zeros, hrest]
      rw [this]
      exact beNat_cons_pos r t hr
    have hne : natToDigitsLE 58 (beNat bs) (beNat bs) ≠ [] :=
      natToDigitsLE_ne_nil 58 _ _ hxpos le_rfl
    have hlast : (natToDigitsLE 58 (beNat bs) (beNat bs)).getLast? ≠ some 0 :=
      natToDigitsLE_last 58 (by norm_num) _ _ le_rfl hxpos
    have hrevne : (natToDigitsLE 58 (beNat bs) (beNat bs)).reverse ≠ [] := by
      simpa using hne
    obtain ⟨d0, ds, hds⟩ := List.exists_cons_of_ne_nil hrevne
    have hd0val : d0 ≠ 0 := by
      intro h0
      apply hlast
      rw [← List.head?_reverse, hds, List.head?_cons, h0]
    have hd0lt : d0 < 58 := by
      apply hdigs58lt
      rw [← List.mem_reverse, hds]
      simp
    have hmaprev : ((natToDigitsLE 58 (beNat bs) (beNat bs)).map b58Char).reverse =
        b58Char d0 :: ds.map b58Char := by
      rw [← List.map_reverse, hds, List.map_cons]
    have hparse : parseB58 (some 0) (base58Encode bs).data = some (beNat bs) := by
      rw [hdata, parseB58_ones, ← List.map_reverse, parseB58_map _ 0
        (fun d hd => hdigs58lt d (List.mem_reverse.mp hd)),
        foldl_reverse_ofDigits, ofDigits_natToDigitsLE 58 (by norm_num) _ _ le_rfl]
    have hcount : ((base58Encode bs).data.takeWhile (fun c => c == '1')).length =
        zeroCount bs := by
      rw [hdata, hmaprev]
      exact takeWhile_ones_append _ _ _ (b58Char_ne_one d0 hd0lt hd0val)
    have hbytes : natToDigitsLE 256 (beNat bs) (beNat bs) = (r :: t).reverse := by
      conv_lhs => rw [hxval, hrest]
      apply natToDigitsLE_ofDigits 256 (by norm_num)
      · intro d hd
        exact hrest_mem d (List.mem_reverse.mp hd)
      · rw [List.getLast?_reverse, List.head?_cons]
        simpa using hr
      · exact le_rfl
    simp only [base58Decode, hparse, hcount, hbytes, List.reverse_reverse]
    rw [← hrest]
    exact hsplit

/-! ### Base58Check payloads of the ledger-style pipelines -/

theorem decode_encode_payload (v : Nat) (hv : v < 256) (data : List Nat) :
    base58Decode (base58Encode ((v :: utils.hash160 data) ++
        utils.computeChecksum (v :: utils.hash160 data))) =
      (v :: utils.hash160 data) ++ utils.computeChecksum (v :: utils.hash160 data) := by
  apply base58_decode_encode
  intro x hx
  rcases List.mem_append.mp hx with h | h
  · rcases List.mem_cons.mp h with rfl | h
    · exact hv
    · exact hash160_lt _ _ h
  · exact computeChecksum_lt _ _ h

theorem generateBTCAddress_eq (k : ChildKey) :
    utils.generateBTCAddress k =
      base58Encode ((0 :: utils.hash160 (publicKeyKey k)) ++
        utils.computeChecksum (0 :: utils.hash160 (publicKeyKey k))) := rfl

theorem generateERCAddress_eq (k : ChildKey) :
    utils.generateERCAddress k =
      base58Encode ((33 :: utils.hash160 (publicKeyKey k)) ++
        utils.computeChecksum (33 :: utils.hash160 (publicKeyKey k))) := rfl

theorem generateTRXAddress_eq (k : ChildKey) :
    utils.generateTRXAddress k =
      base58Encode ((65 :: utils.hash160 (publicKeyKey k)) ++
        utils.computeChecksum (65 :: utils.hash160 (publicKeyKey k))) := rfl

theorem decode_btc (k : ChildKey) :
    base58Decode (utils.generateBTCAddress k) =
      (0 :: utils.hash160 (publicKeyKey k)) ++
        utils.computeChecksum (0 :: utils.hash160 (publicKeyKey k)) := by
  rw [generateBTCAddress_eq]
  exact decode_encode_payload 0 (by norm_num) _

theorem decode_erc (k : ChildKey) :
    base58Decode (utils.generateERCAddress k) =
      (33 :: utils.hash160 (publicKeyKey k)) ++
        utils.computeChecksum (33 :: utils.hash160 (publicKeyKey k)) := by
  rw [generateERCAddress_eq]
  exact decode_encode_payload 33 (by norm_num) _

theorem decode_trx (k : ChildKey) :
    base58Decode (utils.generateTRXAddress k) =
      (65 :: utils.hash160 (publicKeyKey k)) ++
        utils.computeChecksum (65 :: utils.hash160 (publicKeyKey k)) := by
  rw [generateTRXAddress_eq]
  exact decode_encode_payload 65 (by norm_num) _

theorem payload_checksum_split (v : Nat) (data : List Nat) :
    ((v :: utils.hash160 data) ++ utils.computeChecksum (v :: utils.hash160 data)).drop
        (((v :: utils.hash160 data) ++
          utils.computeChecksum (v :: utils.hash160 data)).length - 4) =
      utils.computeChecksum
        (((v :: utils.hash160 data) ++ utils.computeChecksum (v :: utils.hash160 data)).take
          (((v :: utils.hash160 data) ++
            utils.computeChecksum (v :: utils.hash160 data)).length - 4)) := by
  have h21 : (v :: utils.hash160 data).length = 21 := by simp [hash160_length]
  have hlen : ((v :: utils.hash160 data) ++
      utils.computeChecksum (v :: utils.hash160 data)).length = 25 := by
    simp [hash160_length, computeChecksum_length]
  rw [hlen, show (25 - 4 : Nat) = 21 by norm_num, ← h21, List.drop_left, List.take_left]

/-! ### EVM hex formatting -/

theorem bytesToHexAscii_length (l : List Nat) : (bytesToHexAscii l).length = 2 * l.length := by
  induction l with
  | nil => rfl
  | cons b t ih =>
    simp only [bytesToHexAscii, List.flatMap_cons, List.length_append] at ih ⊢
    simp only [List.length_cons, List.length_nil, List.length_cons]
    omega

theorem hexCharLower_mem : ∀ d, d < 16 → hexCharLower d ∈ lowerHexCodes := by decide

theorem mem_bytesToHexAscii (l : List Nat) :
    ∀ v ∈ bytesToHexAscii l, v ∈ lowerHexCodes := by
  induction l with
  | nil => intro v hv; simp [bytesToHexAscii] at hv
  | cons b t ih =>
    intro v hv
    simp only [bytesToHexAscii, List.flatMap_cons, List.mem_append, List.mem_cons,
      List.not_mem_nil, or_false] at hv
    rcases hv with (rfl | rfl) | hv
    · exact hexCharLower_mem _ (Nat.mod_lt _ (by norm_num))
    · exact hexCharLower_mem _ (Nat.mod_lt _ (by norm_num))
    · exact ih v hv

theorem lowerHex_sub32 : ∀ v ∈ lowerHexCodes, 57 < v → v - 32 ∈ hexAsciiCodes := by decide

theorem lowerHex_incl : ∀ v ∈ lowerHexCodes, v ∈ hexAsciiCodes := by decide

theorem mem_checksumHexAscii (addr : List Nat) :
    ∀ v ∈ checksumHexAscii addr, v ∈ hexAsciiCodes := by
  intro v hv
  simp only [checksumHexAscii, List.mem_map, List.mem_range] at hv
  obtain ⟨j, hj, rfl⟩ := hv
  have hc : (bytesToHexAscii addr).getD j 0 ∈ lowerHexCodes := by
    rw [List.getD_eq_getElem _ _ hj]
    exact mem_bytesToHexAscii addr _ (List.getElem_mem _)
  by_cases h : 57 < (bytesToHexAscii addr).getD j 0 ∧
      7 < (if j % 2 = 0 then (keccak256 (bytesToHexAscii addr)).getD (j / 2) 0 / 16
           else (keccak256 (bytesToHexAscii addr)).getD (j / 2) 0 % 16)
  · simp only [if_pos h]
    exact lowerHex_sub32 _ hc h.1
  · simp only [if_neg h]
    exact lowerHex_incl _ hc

theorem checksumHexAscii_length (addr : List Nat) :
    (checksumHexAscii addr).length = 2 * addr.length := by
  simp [checksumHexAscii, bytesToHexAscii_length]

theorem ofNat_hex_mem : ∀ v ∈ hexAsciiCodes, Char.ofNat v ∈ hexDigitChars := by decide

/-!
# Claim theorems
-/

/-- C1: the claim mandates an explicit `UnsupportedNetwork` error for
any network identifier outside {EVM, BTC, TRX, ERC}; the code instead
returns the empty string in both revisions (the current one after
logging, the earlier one silently).  This theorem records the actual
code behaviour at every unsupported identifier. -/
theorem claim_unsupported_returns_empty (k : ChildKey) (n : String)
    (h : n ∉ ["EVM", "BTC", "TRX", "ERC"]) :
    utils.AddressConversion k n = "" ∧ part000.AddressConversion k n = "" := by
  have h1 : ¬ n = "EVM" := fun e => h (by simp [e])
  have h2 : ¬ n = "BTC" := fun e => h (by simp [e])
  have h3 : ¬ n = "TRX" := fun e => h (by simp [e])
  have h4 : ¬ n = "ERC" := fun e => h (by simp [e])
  constructor <;>
    simp [utils.AddressConversion, part000.AddressConversion, h1, h2, h3, h4]

/-- C1 witness: the concrete unsupported identifier `"DOGE"`. -/
theorem claim_unsupported_returns_empty_witness :
    "DOGE" ∉ ["EVM", "BTC", "TRX", "ERC"] ∧
      (utils.AddressConversion keyOne "DOGE" = "" ∧
        part000.AddressConversion keyOne "DOGE" = "") :=
  ⟨by decide, claim_unsupported_returns_empty keyOne "DOGE" (by decide)⟩

/-- C2 (amended): for every child key the utils.go EVM output is exactly
42 characters, `"0x"` followed by 40 hex characters in EIP-55
mixed-case checksum form (not necessarily lowercase), and the part_000
revision returns the same string with a second `"0x"` prepended (44
characters). -/
theorem claim_evm_format (k : ChildKey) :
    (utils.generateEVMAddress k).length = 42 ∧
    (utils.generateEVMAddress k).data.take 2 = ['0', 'x'] ∧
    (∀ c ∈ (utils.generateEVMAddress k).data.drop 2, c ∈ hexDigitChars) ∧
    part000.generateEVMAddress k = "0x" ++ utils.generateEVMAddress k := by
  have haddr : ((keccak256
      (natBytes32BE (coords (scalarBaseMult (beNat k.key))).1 ++
        natBytes32BE (coords (scalarBaseMult (beNat k.key))).2)).drop 12).length = 20 := by
    simp [List.length_drop, keccak256_length]
  have hdata : (utils.generateEVMAddress k).data =
      '0' :: 'x' :: (checksumHexAscii ((keccak256
        (natBytes32BE (coords (scalarBaseMult (beNat k.key))).1 ++
          natBytes32BE (coords (scalarBaseMult (beNat k.key))).2)).drop 12)).map
            Char.ofNat := rfl
  refine ⟨?_, ?_, ?_, rfl⟩
  · show (utils.generateEVMAddress k).data.length = 42
    rw [hdata]
    simp [checksumHexAscii_length, haddr]
  · rw [hdata]; rfl
  · intro c hc
    rw [hdata] at hc
    simp only [List.drop_succ_cons, List.drop_zero, List.mem_map] at hc
    obtain ⟨v, hv, rfl⟩ := hc
    exact ofNat_hex_mem v (mem_checksumHexAscii _ v hv)

set_option maxRecDepth 1000000 in
/-- C2 counterexample: at the child key with scalar 1 the utils.go EVM
address (`0x7E5F4552091A69125d5DfCb7b8C2659029395Bdf`) contains
uppercase hex characters, so the output is not `"0x"` followed by 40
lowercase hex characters. -/
theorem claim_evm_lowercase_cex :
    ¬ ∀ c ∈ (utils.generateEVMAddress keyOne).data.drop 2, c ∈ lowercaseHexChars := by
  decide

/-- C3 (amended): the part_000 TRX pipeline hashes the 65-byte
uncompressed public key re-derived from the private scalar, but the
current utils.go TRX pipeline instead hashes the 33-byte compressed
public key supplied by `childKey.PublicKey().Key`. -/
theorem claim_trx_key_forms (k : ChildKey) :
    (publicKeyKey k).length = 33 ∧
    (serializeUncompressed (coords (scalarBaseMult (beNat k.key)))).length = 65 ∧
    utils.generateTRXAddress k =
      mrtronBase58Encode ((65 :: utils.hash160 (publicKeyKey k)) ++
        utils.computeChecksum (65 :: utils.hash160 (publicKeyKey k))) ∧
    part000.generateTRXAddress k =
      base58Encode ((65 :: utils.hash160 (serializeUncompressed
          (coords (scalarBaseMult (beNat k.key))))) ++
        utils.computeChecksum (65 :: utils.hash160 (serializeUncompressed
          (coords (scalarBaseMult (beNat k.key)))))) := by
  refine ⟨?_, ?_, rfl, rfl⟩
  · simp [publicKeyKey, compressPublicKey, natBytes32BE]
  · simp [serializeUncompressed, natBytes32BE]

set_option maxRecDepth 1000000 in
/-- C3 counterexample: at the child key with scalar 1 the utils.go TRX
output differs from the Base58Check of the hash160 of the 65-byte
uncompressed re-derived public key, so the utils.go TRX pipeline does
not hash the uncompressed key. -/
theorem claim_trx_uncompressed_cex :
    utils.generateTRXAddress keyOne ≠
      base58Encode ((65 :: utils.hash160 (serializeUncompressed
          (coords (scalarBaseMult (beNat keyOne.key))))) ++
        utils.computeChecksum (65 :: utils.hash160 (serializeUncompressed
          (coords (scalarBaseMult (beNat keyOne.key)))))) := by
  decide

/-- C4: `hash160` is the RIPEMD-160 digest of the SHA-256 digest of its
input, always 20 bytes; the part_000 `Hash160` is the same function.
Both are total pure functions (no error path). -/
theorem claim_hash160 (data : List Nat) :
    utils.hash160 data = ripemd160 (sha256 data) ∧
      (utils.hash160 data).length = 20 ∧
      part000.Hash160 data = utils.hash160 data :=
  ⟨rfl, hash160_length data, rfl⟩

/-- C5: `computeChecksum` is the first 4 bytes of the double SHA-256 of
its input, always 4 bytes; the part_000 `computeChecksum` is the same
function.  Both are total pure functions (no error path). -/
theorem claim_checksum4 (data : List Nat) :
    utils.computeChecksum data = (sha256 (sha256 data)).take 4 ∧
      (utils.computeChecksum data).length = 4 ∧
      part000.computeChecksum data = utils.computeChecksum data :=
  ⟨rfl, computeChecksum_length data, rfl⟩

/-- C6: replacing the leading byte of the BTC pipeline's pre-encoding
payload with `0x21` and recomputing the 4-byte checksum yields exactly
the Base58-decoding of the ERC pipeline's output. -/
theorem claim_erc_btc_relation (k : ChildKey) :
    utils.generateBTCAddress k =
      base58Encode ((0 :: utils.hash160 (publicKeyKey k)) ++
        utils.computeChecksum (0 :: utils.hash160 (publicKeyKey k))) ∧
    base58Decode (utils.generateERCAddress k) =
      (33 :: (0 :: utils.hash160 (publicKeyKey k)).tail) ++
        utils.computeChecksum (33 :: (0 :: utils.hash160 (publicKeyKey k)).tail) := by
  refine ⟨rfl, ?_⟩
  rw [List.tail_cons]
  exact decode_erc k

/-- C7: Base58-decoding a BTC address yields a payload beginning with
`0x00`, an ERC address one beginning with `0x21`, and a TRX address one
beginning with `0x41`. -/
theorem claim_version_bytes (k : ChildKey) :
    (base58Decode (utils.generateBTCAddress k)).head? = some 0 ∧
    (base58Decode (utils.generateERCAddress k)).head? = some 33 ∧
    (base58Decode (utils.generateTRXAddress k)).head? = some 65 := by
  refine ⟨?_, ?_, ?_⟩
  · rw [decode_btc k]; rfl
  · rw [decode_erc k]; rfl
  · rw [decode_trx k]; rfl

/-- C8: for each of the BTC, ERC and TRX pipelines, Base58-decoding the
output recovers a payload whose last 4 bytes equal `computeChecksum` of
the preceding bytes. -/
theorem claim_checksum_roundtrip (k : ChildKey) :
    ((base58Decode (utils.generateBTCAddress k)).drop
        ((base58Decode (utils.generateBTCAddress k)).length - 4) =
      utils.computeChecksum ((base58Decode (utils.generateBTCAddress k)).take
        ((base58Decode (utils.generateBTCAddress k)).length - 4))) ∧
    ((base58Decode (utils.generateERCAddress k)).drop
        ((base58Decode (utils.generateERCAddress k)).length - 4) =
      utils.computeChecksum ((base58Decode (utils.generateERCAddress k)).take
        ((base58Decode (utils.generateERCAddress k)).length - 4))) ∧
    ((base58Decode (utils.generateTRXAddress k)).drop
        ((base58Decode (utils.generateTRXAddress k)).length - 4) =
      utils.computeChecksum ((base58Decode (utils.generateTRXAddress k)).take
        ((base58Decode (utils.generateTRXAddress k)).length - 4))) := by
  refine ⟨?_, ?_, ?_⟩
  · rw [decode_btc k]; exact payload_checksum_split 0 _
  · rw [decode_erc k]; exact payload_checksum_split 33 _
  · rw [decode_trx k]; exact payload_checksum_split 65 _

/-- C9: `AddressConversion` is deterministic — its result depends only
on the child key and the network identifier, so equal arguments give
equal address strings on any two invocations. -/
theorem claim_determinism (k1 k2 : ChildKey) (n1 n2 : String)
    (hk : k1 = k2) (hn : n1 = n2) :
    utils.AddressConversion k1 n1 = utils.AddressConversion k2 n2 := by
  rw [hk, hn]

/-- C9 witness: two invocations at the concrete key with scalar 1 and
network `"BTC"` agree. -/
theorem claim_determinism_witness :
    utils.AddressConversion keyOne "BTC" = utils.AddressConversion keyOne "BTC" :=
  claim_determinism keyOne keyOne "BTC" "BTC" rfl rfl

/-- C10: the two revisions' BTC pipelines compute the same address: both
are the Base58 encoding of `0x00` plus the hash160 of the compressed
public key plus the double-SHA-256 4-byte checksum. -/
theorem claim_btc_revisions_agree (k : ChildKey) :
    utils.generateBTCAddress k = part000.generateBTCAddress k ∧
    utils.generateBTCAddress k =
      base58Encode ((0 :: utils.hash160 (publicKeyKey k)) ++
        utils.computeChecksum (0 :: utils.hash160 (publicKeyKey k))) :=
  ⟨rfl, rfl⟩

end Wallet
